import Mathlib

/-!
Verification of the chat-server core in `server/server.go`.

The program keeps a shared map `clients : map[net.Conn]string` from client
connections to nicknames, guarded by `clientsLock`.  Each connection is served
by `handleClient`, a loop that reads a line, trims it, and dispatches on a
literal command match.  We embed the registry as an association list whose
keys are connection identities, model `net.Conn` values as `Option Nat`
(`none` standing for a nil connection interface, which the code tests with
`clientConn != nil`), and model the body of one iteration of the
`handleClient` read loop as a pure step function `processLine` returning the
new session state, the new registry, the sequence of write attempts, and
whether the worker returned (a checked write on the session's own connection
having failed).  Go map iteration order is unspecified, so every theorem
quantifies over the association list, covering all iteration orders.
-/

/-- Connection identity; `none` models a nil `net.Conn` interface value. -/
abbrev Conn := Option Nat

/-- The nil connection, compared against by `clientConn != nil` in the source. -/
def nilConn : Conn := none

/-- The shared `clients` map: connection identity to nickname.  Go map keys
are unique; theorems that need this carry a `Nodup` hypothesis on keys. -/
abbrev Registry := List (Conn × String)

/-- Command literal `NickChangeCommand = "/NICK "` from the source. -/
def NickChangeCommand : String := "/NICK "

/-- Command literal `MessageCommand = "/MSG "` from the source. -/
def MessageCommand : String := "/MSG "

/-- Command literal `ListCommand = "/LIST"` from the source. -/
def ListCommand : String := "/LIST"

/-- Command literal `BroadcastCommand = "/BC "` from the source. -/
def BroadcastCommand : String := "/BC "

/-- Line terminator `newline = "\n\r"` from the source. -/
def newline : String := "\n\r"

/-- Whitespace recognized by `strings.TrimSpace` (the ASCII part of Go's
`unicode.IsSpace`; every input in this development is ASCII). -/
def isSpaceChar (c : Char) : Bool :=
  c == ' ' || c == '\t' || c == '\n' || c == '\x0b' || c == '\x0c' || c == '\r'

/-- Go `strings.TrimSpace`: remove leading and trailing whitespace. -/
def trimSpace (s : String) : String :=
  String.mk (((s.toList.dropWhile isSpaceChar).reverse.dropWhile isSpaceChar).reverse)

/-- Character-list core of `strings.HasPrefix`: does the second list start
with the first? -/
def listIsPre : List Char → List Char → Bool
  | [], _ => true
  | _ :: _, [] => false
  | c :: cs, d :: ds => c == d && listIsPre cs ds

/-- Go `strings.HasPrefix s cmd`. -/
def strHasPre (s cmd : String) : Bool :=
  listIsPre cmd.toList s.toList

/-- Go `strings.TrimPrefix s cmd`: drop `cmd` from the front of `s` when it is
there, otherwise return `s` unchanged. -/
def dropCmd (s cmd : String) : String :=
  if strHasPre s cmd then String.mk (s.toList.drop cmd.toList.length) else s

/-- `isNicknameAvailable`: true iff no current registry entry holds the
nickname.  The source scans every value of `clients` under the lock and
returns false on the first equal value. -/
def isNicknameAvailable (clients : Registry) (nickname : String) : Bool :=
  clients.all (fun p => p.2 != nickname)

/-- The map assignment `clients[conn] = nickname` performed in the `/NICK`
branch of `handleClient`: replace the entry for `conn` when present,
otherwise add one.  The association list is unordered, like the Go map. -/
def mapAssign (clients : Registry) (conn : Conn) (nickname : String) : Registry :=
  (conn, nickname) :: clients.filter (fun p => p.1 != conn)

/-- `handleClientDisconnect`: `delete(clients, conn)` under the lock.  The
nickname argument of the source function is only logged, so it is omitted. -/
def handleClientDisconnect (clients : Registry) (conn : Conn) : Registry :=
  clients.filter (fun p => p.1 != conn)

/-- `getClientList`: concatenate every nickname followed by a space. -/
def getClientList (clients : Registry) : String :=
  clients.foldl (fun acc p => acc ++ p.2 ++ " ") ""

/-- `broadcastMessage message senderNickname senderConn`: for each entry, a
non-nil connection whose nickname differs from the sender's receives
`"<sender>: <message>"`; otherwise, the entry whose connection is the
sender's own receives `"You: <message>"`; any other entry receives nothing.
The result is the list of write attempts in iteration order (write errors
are logged and do not stop the fan-out). -/
def broadcastMessage (clients : Registry) (message senderNickname : String)
    (senderConn : Conn) : List (Conn × String) :=
  clients.filterMap (fun p =>
    if p.1 ≠ nilConn ∧ p.2 ≠ senderNickname then
      some (p.1, senderNickname ++ ": " ++ message ++ newline)
    else if p.1 = senderConn then
      some (p.1, "You: " ++ message ++ newline)
    else
      none)

/-- `sendPrivateMessage recipientNickname message senderNickname senderConn`:
scan for the first non-nil entry registered under the recipient nickname and
write to it alone; when the scan finds none, write the not-found notice to
the sender's own connection. -/
def sendPrivateMessage (clients : Registry)
    (recipientNickname message senderNickname : String)
    (senderConn : Conn) : List (Conn × String) :=
  match clients.find? (fun p => p.1 != nilConn && p.2 == recipientNickname) with
  | some p => [(p.1, senderNickname ++ " (private): " ++ message ++ newline)]
  | none => [(senderConn, "User " ++ recipientNickname ++ " not found or offline." ++ newline)]

/-- The first-space split `strings.SplitN(s, " ", 2)` works on: the part
before the first space and the part after it, when a space exists. -/
def splitFirstSpace : List Char → Option (List Char × List Char)
  | [] => none
  | c :: cs =>
    if c = ' ' then some ([], cs)
    else
      match splitFirstSpace cs with
      | some (a, b) => some (c :: a, b)
      | none => none

/-- `strings.SplitN(s, " ", 2)`: two parts split at the first space, or the
single part `[s]` when `s` has no space. -/
def splitN2 (s : String) : List String :=
  match splitFirstSpace s.toList with
  | some (a, b) => [String.mk a, String.mk b]
  | none => [s]

/-- Usage reply of the `/MSG` arity check. -/
def usageResponse : String := "Usage: /MSG <nickname> <message>" ++ newline

/-- The command list shown by the unrecognized-command reply. -/
def commandList : String :=
  NickChangeCommand ++ "<nickname>\n\r" ++ MessageCommand ++ "<nickname> <message>\n\r"
    ++ ListCommand ++ "\n\r" ++ BroadcastCommand ++ "<message>"

/-- Reply to a registered session on unrecognized input. -/
def helpResponse : String :=
  "Please enter the correct command.\n\r" ++ commandList ++ newline

/-- Reply to an unregistered session on anything but `/NICK `. -/
def registerFirstResponse : String :=
  "You need to set your nickname at first.\n\rUse /NICK <nickname> to set your nickname." ++ newline

/-- Reply when the requested nickname is taken. -/
def nickInUseResponse : String :=
  "Nickname already in use. Choose a different nickname." ++ newline

/-- Result of one iteration of the `handleClient` read loop: the session
variables `nickname` and `hasNickname`, the registry, the write attempts of
the iteration in order, and whether the worker returned because a checked
write on its own connection failed. -/
structure StepResult where
  nickname : String
  hasNickname : Bool
  clients : Registry
  writes : List (Conn × String)
  terminated : Bool
  deriving Repr, DecidableEq

/-- Dispatch of one already-trimmed line, following the `if`/`else if` chain
of `handleClient` exactly.  `wfail` tells whether the (single) error-checked
write to the session's own connection in the taken branch fails; the source
returns on such a failure without touching the registry.  The replies of the
two trailing `else` branches are written without an error check, so those
branches never terminate the worker. -/
def processMessage (conn : Conn) (nickname : String) (hasNickname : Bool)
    (clients : Registry) (message : String) (wfail : Bool) : StepResult :=
  if strHasPre message NickChangeCommand then
    let newNickname := dropCmd message NickChangeCommand
    if isNicknameAvailable clients newNickname then
      ⟨newNickname, true, mapAssign clients conn newNickname,
        [(conn, "Your nickname is now set to: " ++ newNickname ++ newline)], wfail⟩
    else
      ⟨nickname, hasNickname, clients, [(conn, nickInUseResponse)], wfail⟩
  else if message == ListCommand && hasNickname then
    ⟨nickname, hasNickname, clients,
      [(conn, "Client List: " ++ getClientList clients ++ newline)], wfail⟩
  else if strHasPre message BroadcastCommand && hasNickname then
    ⟨nickname, hasNickname, clients,
      broadcastMessage clients (dropCmd message BroadcastCommand) nickname conn, false⟩
  else if strHasPre message MessageCommand && hasNickname then
    match splitN2 (dropCmd message MessageCommand) with
    | [recipientNickname, messageToSend] =>
      ⟨nickname, hasNickname, clients,
        sendPrivateMessage clients recipientNickname messageToSend nickname conn, false⟩
    | _ =>
      ⟨nickname, hasNickname, clients, [(conn, usageResponse)], wfail⟩
  else if hasNickname then
    ⟨nickname, hasNickname, clients, [(conn, helpResponse)], false⟩
  else
    ⟨nickname, hasNickname, clients, [(conn, registerFirstResponse)], false⟩

/-- One iteration of the read loop on raw input: `message := strings.TrimSpace(input)`
followed by the dispatch. -/
def processLine (conn : Conn) (nickname : String) (hasNickname : Bool)
    (clients : Registry) (input : String) (wfail : Bool) : StepResult :=
  processMessage conn nickname hasNickname clients (trimSpace input) wfail

/-- The registry mutations the source performs: the guarded insert of the
`/NICK ` branch (register and rename share this path) and the removal of
`handleClientDisconnect`. -/
inductive RegistryOp where
  | register (conn : Conn) (name : String)
  | remove (conn : Conn)
  deriving Repr, DecidableEq

/-- Apply one registry mutation as the source does: a register first checks
`isNicknameAvailable` and inserts only on success; a remove deletes. -/
def applyOp (clients : Registry) : RegistryOp → Registry
  | .register conn name =>
    if isNicknameAvailable clients name then mapAssign clients conn name else clients
  | .remove conn => handleClientDisconnect clients conn

/-- Run a sequence of registry mutations from a starting registry. -/
def runOps (clients : Registry) (ops : List RegistryOp) : Registry :=
  ops.foldl applyOp clients

/-! ## Helper lemmas -/

theorem isNicknameAvailable_eq_false (reg : Registry) (name : String)
    (h : ∃ p ∈ reg, p.2 = name) : isNicknameAvailable reg name = false := by
  obtain ⟨p, hp, hpe⟩ := h
  apply Bool.eq_false_iff.2
  intro hall
  rcases List.all_eq_true.1 hall p hp with hb
  exact absurd hpe (bne_iff_ne.1 hb)

theorem processMessage_nick_taken (conn : Conn) (nickname : String) (hasNick : Bool)
    (reg : Registry) (message : String) (wfail : Bool)
    (hpre : strHasPre message NickChangeCommand = true)
    (htaken : ∃ p ∈ reg, p.2 = dropCmd message NickChangeCommand) :
    processMessage conn nickname hasNick reg message wfail
      = ⟨nickname, hasNick, reg, [(conn, nickInUseResponse)], wfail⟩ := by
  rw [processMessage]
  simp [hpre, isNicknameAvailable_eq_false reg _ htaken]

theorem applyOp_nodup (reg : Registry) (op : RegistryOp)
    (h : (reg.map Prod.snd).Nodup) : ((applyOp reg op).map Prod.snd).Nodup := by
  have hsub : ∀ f : Conn × String → Bool,
      ((reg.filter f).map Prod.snd).Nodup := fun f =>
    List.Nodup.sublist (List.Sublist.map Prod.snd (List.filter_sublist reg)) h
  cases op with
  | register conn name =>
    rw [applyOp]
    by_cases havail : isNicknameAvailable reg name = true
    · rw [if_pos havail, mapAssign, List.map_cons]
      refine List.nodup_cons.2 ⟨?_, hsub _⟩
      intro hmemname
      obtain ⟨p, hp, hpe⟩ := List.mem_map.1 hmemname
      have hpreg : p ∈ reg := List.mem_of_mem_filter hp
      rw [isNicknameAvailable] at havail
      exact absurd hpe (bne_iff_ne.1 (List.all_eq_true.1 havail p hpreg))
    · rw [if_neg havail]
      exact h
  | remove conn =>
    rw [applyOp, handleClientDisconnect]
    exact hsub _

theorem broadcastMessage_cons (q : Conn × String) (reg : Registry)
    (body senderNick : String) (senderConn : Conn) :
    broadcastMessage (q :: reg) body senderNick senderConn
      = (if q.1 ≠ nilConn ∧ q.2 ≠ senderNick then
          (q.1, senderNick ++ ": " ++ body ++ newline)
            :: broadcastMessage reg body senderNick senderConn
        else if q.1 = senderConn then
          (q.1, "You: " ++ body ++ newline)
            :: broadcastMessage reg body senderNick senderConn
        else broadcastMessage reg body senderNick senderConn) := by
  simp only [broadcastMessage, List.filterMap_cons]
  by_cases h1 : q.1 ≠ nilConn ∧ q.2 ≠ senderNick
  · rw [if_pos h1, if_pos h1]
  · rw [if_neg h1, if_neg h1]
    by_cases h2 : q.1 = senderConn
    · rw [if_pos h2, if_pos h2]
    · rw [if_neg h2, if_neg h2]

theorem broadcast_without_sender (body senderNick : String) (senderConn : Conn)
    (reg : Registry) (hnick : senderNick ∉ reg.map Prod.snd)
    (hnn : ∀ p ∈ reg, p.1 ≠ nilConn) :
    broadcastMessage reg body senderNick senderConn
      = reg.map (fun p => (p.1, senderNick ++ ": " ++ body ++ newline)) := by
  induction reg with
  | nil => rfl
  | cons q reg ih =>
    simp only [List.map_cons, List.mem_cons, not_or] at hnick
    rw [broadcastMessage_cons,
      if_pos ⟨hnn q (List.mem_cons_self q reg), fun h => hnick.1 h.symm⟩,
      List.map_cons, ih hnick.2 (fun p hp => hnn p (List.mem_cons_of_mem q hp))]

theorem broadcast_with_sender (body senderNick : String) (senderConn : Conn)
    (reg : Registry) :
    (senderConn, senderNick) ∈ reg →
    (reg.map Prod.fst).Nodup →
    (reg.map Prod.snd).Nodup →
    (∀ p ∈ reg, p.1 ≠ nilConn) →
    broadcastMessage reg body senderNick senderConn
      = reg.map (fun p =>
          if p.1 = senderConn then (p.1, "You: " ++ body ++ newline)
          else (p.1, senderNick ++ ": " ++ body ++ newline)) := by
  induction reg with
  | nil => exact fun hmem _ _ _ => absurd hmem (List.not_mem_nil _)
  | cons q reg ih =>
    intro hmem hkeys hnicks hnn
    rw [List.map_cons] at hkeys hnicks
    have hkeys' := List.nodup_cons.1 hkeys
    have hnicks' := List.nodup_cons.1 hnicks
    have hnntail : ∀ p ∈ reg, p.1 ≠ nilConn :=
      fun p hp => hnn p (List.mem_cons_of_mem q hp)
    rcases List.mem_cons.1 hmem with hq | hq
    · rw [← hq]
      rw [← hq] at hkeys' hnicks'
      rw [broadcastMessage_cons]
      simp only [ne_eq, not_true_eq_false, and_false, if_false, if_pos rfl, if_true,
        List.map_cons, if_pos (rfl : senderConn = senderConn)]
      rw [broadcast_without_sender body senderNick senderConn reg hnicks'.1 hnntail]
      have hsc : senderConn ∉ List.map Prod.fst reg := hkeys'.1
      refine congrArg _ (List.map_congr_left fun p hp => ?_)
      rw [if_neg]
      intro hps
      exact hsc (hps ▸ List.mem_map_of_mem Prod.fst hp)
    · have hq1s : q.1 ≠ senderConn := by
        intro h
        apply hkeys'.1
        rw [h]
        exact List.mem_map_of_mem Prod.fst hq
      have hq2s : q.2 ≠ senderNick := by
        intro h
        apply hnicks'.1
        rw [h]
        exact List.mem_map_of_mem Prod.snd hq
      rw [broadcastMessage_cons, if_pos ⟨hnn q (List.mem_cons_self q reg), hq2s⟩,
        List.map_cons, if_neg hq1s,
        ih hq hkeys'.2 hnicks'.2 hnntail]

theorem find_recipient (reg : Registry) (recip : String) (c : Conn)
    (hnicks : (reg.map Prod.snd).Nodup)
    (hnn : ∀ p ∈ reg, p.1 ≠ nilConn)
    (hmem : (c, recip) ∈ reg) :
    reg.find? (fun p => p.1 != nilConn && p.2 == recip) = some (c, recip) := by
  induction reg with
  | nil => exact absurd hmem (List.not_mem_nil _)
  | cons q reg ih =>
    rw [List.map_cons] at hnicks
    have hnicks' := List.nodup_cons.1 hnicks
    by_cases hq : q.2 = recip
    · have hqc : q = (c, recip) := by
        rcases List.mem_cons.1 hmem with h | h
        · exact h.symm
        · refine absurd ?_ hnicks'.1
          rw [hq]
          exact List.mem_map_of_mem Prod.snd h
      rw [List.find?_cons_of_pos, hqc]
      simp only [Bool.and_eq_true, bne_iff_ne, beq_iff_eq]
      exact ⟨hnn q (List.mem_cons_self q reg), hq⟩
    · rw [List.find?_cons_of_neg]
      · have hmem' : (c, recip) ∈ reg := by
          rcases List.mem_cons.1 hmem with h | h
          · exact absurd (congrArg Prod.snd h.symm) hq
          · exact h
        exact ih hnicks'.2 (fun p hp => hnn p (List.mem_cons_of_mem q hp)) hmem'
      · simp only [Bool.and_eq_true, bne_iff_ne, beq_iff_eq, not_and]
        exact fun _ => hq

/-! ## Claim theorems -/

/-- C9: deleting a connection's registry entry is idempotent, and deleting a
connection that holds no entry leaves the registry unchanged. -/
theorem remove_idempotent (reg : Registry) (conn : Conn) :
    handleClientDisconnect (handleClientDisconnect reg conn) conn
      = handleClientDisconnect reg conn ∧
    (conn ∉ reg.map Prod.fst → handleClientDisconnect reg conn = reg) := by
  constructor
  · simp [handleClientDisconnect, List.filter_filter]
  · intro h
    apply List.filter_eq_self.2
    intro p hp
    simp only [bne_iff_ne, ne_eq]
    intro hc
    exact h (hc ▸ List.mem_map_of_mem Prod.fst hp)

/-- Witness for `remove_idempotent` at a concrete registry and an absent
connection. -/
theorem remove_idempotent_witness :
    handleClientDisconnect (handleClientDisconnect [(some 0, "alice")] (some 1)) (some 1)
      = handleClientDisconnect [(some 0, "alice")] (some 1) ∧
    handleClientDisconnect [(some 0, "alice")] (some 1) = [(some 0, "alice")] :=
  ⟨(remove_idempotent [(some 0, "alice")] (some 1)).1,
    (remove_idempotent [(some 0, "alice")] (some 1)).2 (by decide)⟩

/-- C4: while unregistered, any line whose trimmed form does not start with
"/NICK " yields only the register-first reply on the session's own
connection; the registry, nickname and registered flag are untouched and the
worker continues. -/
theorem registration_gate (conn : Conn) (nickname : String) (reg : Registry)
    (input : String) (wfail : Bool)
    (h : strHasPre (trimSpace input) NickChangeCommand = false) :
    processLine conn nickname false reg input wfail
      = ⟨nickname, false, reg, [(conn, registerFirstResponse)], false⟩ := by
  rw [processLine, processMessage]
  simp [h]

/-- Witness for `registration_gate` on a plain chat line. -/
theorem registration_gate_witness :
    processLine (some 0) "" false [] "hello\n" false
      = ⟨"", false, [], [(some 0, registerFirstResponse)], false⟩ :=
  registration_gate (some 0) "" [] "hello\n" false (by rfl)

/-- C8: a /NICK request for a nickname some registry entry already holds
produces exactly the in-use reply to the requesting session and changes
neither the registry nor the session's nickname or registered flag. -/
theorem nick_conflict_no_change (conn : Conn) (nickname : String) (hasNick : Bool)
    (reg : Registry) (input : String) (wfail : Bool)
    (hpre : strHasPre (trimSpace input) NickChangeCommand = true)
    (htaken : ∃ p ∈ reg, p.2 = dropCmd (trimSpace input) NickChangeCommand) :
    processLine conn nickname hasNick reg input wfail
      = ⟨nickname, hasNick, reg, [(conn, nickInUseResponse)], wfail⟩ :=
  processMessage_nick_taken conn nickname hasNick reg (trimSpace input) wfail hpre htaken

/-- Witness for `nick_conflict_no_change`: a second session asks for the
taken name "alice". -/
theorem nick_conflict_no_change_witness :
    processLine (some 1) "" false [(some 0, "alice")] "/NICK alice\n" false
      = ⟨"", false, [(some 0, "alice")], [(some 1, nickInUseResponse)], false⟩ :=
  nick_conflict_no_change (some 1) "" false [(some 0, "alice")] "/NICK alice\n" false
    (by rfl) ⟨(some 0, "alice"), by simp, by rfl⟩

/-- C10: a registered session renaming to its own current nickname is
rejected with the in-use reply, because the availability scan also matches
its own entry; registry and session state are unchanged. -/
theorem self_rename_rejected (conn : Conn) (reg : Registry) (nickname input : String)
    (wfail : Bool)
    (hmem : (conn, nickname) ∈ reg)
    (hpre : strHasPre (trimSpace input) NickChangeCommand = true)
    (harg : dropCmd (trimSpace input) NickChangeCommand = nickname) :
    processLine conn nickname true reg input wfail
      = ⟨nickname, true, reg, [(conn, nickInUseResponse)], wfail⟩ :=
  processMessage_nick_taken conn nickname true reg (trimSpace input) wfail hpre
    ⟨(conn, nickname), hmem, harg.symm⟩

/-- Witness for `self_rename_rejected`: "alice" renames to "alice". -/
theorem self_rename_rejected_witness :
    processLine (some 0) "alice" true [(some 0, "alice")] "/NICK alice\n" false
      = ⟨"alice", true, [(some 0, "alice")], [(some 0, nickInUseResponse)], false⟩ :=
  self_rename_rejected (some 0) [(some 0, "alice")] "alice" "/NICK alice\n" false
    (by simp) (by rfl) (by rfl)

/-- C6 counterexample: the line "/NICK \n" (command keyword followed only by
whitespace) trims to "/NICK", fails the "/NICK " match, and yields the
register-first reply with no registration; the claimed empty-argument
validation (which on the empty registry would succeed and register) never
runs. -/
theorem empty_arg_counterexample :
    strHasPre (trimSpace "/NICK \n") NickChangeCommand = false ∧
    processLine (some 0) "" false [] "/NICK \n" false
      = ⟨"", false, [], [(some 0, registerFirstResponse)], false⟩ :=
  ⟨rfl, rfl⟩

/-- C6 amended: a command keyword followed only by whitespace trims to the
bare keyword before matching.  For the three prefix-matched commands /NICK,
/MSG and /BC the bare keyword fails the trailing-space prefix match and the
line is handled as unrecognized input — help reply when registered,
register-first reply when not; no state change, and an empty argument never
reaches the command's validation.  For /LIST, whose match is exact equality,
the trimmed line equals the command literal, so a registered session gets
the list reply (an unregistered one the register-first reply). -/
theorem whitespace_only_arg_unrecognized (conn : Conn) (nickname : String)
    (hasNick : Bool) (reg : Registry) (input : String) (wfail : Bool) :
    (trimSpace input = "/NICK" ∨ trimSpace input = "/MSG" ∨ trimSpace input = "/BC" →
      processLine conn nickname hasNick reg input wfail
        = ⟨nickname, hasNick, reg,
            [(conn, if hasNick then helpResponse else registerFirstResponse)], false⟩) ∧
    (trimSpace input = "/LIST" →
      processLine conn nickname hasNick reg input wfail
        = if hasNick then
            ⟨nickname, true, reg,
              [(conn, "Client List: " ++ getClientList reg ++ newline)], wfail⟩
          else
            ⟨nickname, false, reg, [(conn, registerFirstResponse)], false⟩) := by
  constructor
  · intro h
    rcases h with h | h | h <;> cases hasNick <;> simp only [processLine, h] <;> rfl
  · intro h
    cases hasNick <;> simp only [processLine, h] <;> rfl

/-- Witness for `whitespace_only_arg_unrecognized`: an unregistered session
sends "/MSG" followed only by whitespace, a registered one sends "/BC" and
"/LIST" followed only by whitespace. -/
theorem whitespace_only_arg_unrecognized_witness :
    processLine (some 0) "" false [] "/MSG \n" false
      = ⟨"", false, [], [(some 0, registerFirstResponse)], false⟩ ∧
    processLine (some 0) "alice" true [(some 0, "alice")] "/BC  \n" false
      = ⟨"alice", true, [(some 0, "alice")], [(some 0, helpResponse)], false⟩ ∧
    processLine (some 0) "alice" true [(some 0, "alice")] "/LIST \n" false
      = ⟨"alice", true, [(some 0, "alice")],
          [(some 0, "Client List: " ++ getClientList [(some 0, "alice")] ++ newline)],
          false⟩ :=
  ⟨(whitespace_only_arg_unrecognized (some 0) "" false [] "/MSG \n" false).1
      (Or.inr (Or.inl rfl)),
    (whitespace_only_arg_unrecognized (some 0) "alice" true [(some 0, "alice")]
      "/BC  \n" false).1 (Or.inr (Or.inr rfl)),
    (whitespace_only_arg_unrecognized (some 0) "alice" true [(some 0, "alice")]
      "/LIST \n" false).2 rfl⟩

/-- C7 counterexample: "/LISTED" from a registered session is not handled as
the list command: it falls through to the unrecognized-command help reply,
which differs from the list reply. -/
theorem trailing_list_counterexample :
    processLine (some 0) "alice" true [(some 0, "alice")] "/LISTED\n" false
      = ⟨"alice", true, [(some 0, "alice")], [(some 0, helpResponse)], false⟩ ∧
    helpResponse ≠ "Client List: " ++ getClientList [(some 0, "alice")] ++ newline :=
  ⟨rfl, by decide⟩

/-- C7 amended: the list command is recognized by exact equality of the whole
trimmed line, unlike the three prefix-matched commands: exactly "/LIST"
yields the list reply, while a registered session's line that starts with
"/LIST" but is longer (and matches no other command literal) gets the help
reply. -/
theorem list_exact_match (conn : Conn) (nickname : String) (reg : Registry)
    (input : String) (wfail : Bool) :
    (trimSpace input = ListCommand →
      processLine conn nickname true reg input wfail
        = ⟨nickname, true, reg,
            [(conn, "Client List: " ++ getClientList reg ++ newline)], wfail⟩) ∧
    (strHasPre (trimSpace input) ListCommand = true →
      trimSpace input ≠ ListCommand →
      strHasPre (trimSpace input) NickChangeCommand = false →
      strHasPre (trimSpace input) BroadcastCommand = false →
      strHasPre (trimSpace input) MessageCommand = false →
      processLine conn nickname true reg input wfail
        = ⟨nickname, true, reg, [(conn, helpResponse)], false⟩) := by
  constructor
  · intro h
    simp only [processLine, h]
    rfl
  · intro _ hne hn hb hm
    have hbeq : (trimSpace input == ListCommand) = false := beq_eq_false_iff_ne.2 hne
    rw [processLine, processMessage]
    simp [hn, hb, hm, hbeq]

/-- Witness for `list_exact_match` at "/LIST" and "/LISTING". -/
theorem list_exact_match_witness :
    processLine (some 0) "alice" true [(some 0, "alice")] " /LIST \n" false
      = ⟨"alice", true, [(some 0, "alice")],
          [(some 0, "Client List: " ++ getClientList [(some 0, "alice")] ++ newline)],
          false⟩ ∧
    processLine (some 0) "alice" true [(some 0, "alice")] "/LISTING\n" false
      = ⟨"alice", true, [(some 0, "alice")], [(some 0, helpResponse)], false⟩ :=
  ⟨(list_exact_match (some 0) "alice" [(some 0, "alice")] " /LIST \n" false).1 (by rfl),
    (list_exact_match (some 0) "alice" [(some 0, "alice")] "/LISTING\n" false).2
      (by rfl) (by decide) (by rfl) (by rfl) (by rfl)⟩

/-- C3 divergence: when the write of the nickname-confirmation reply fails,
the worker terminates with the freshly inserted registry entry left in
place; only the read-failure path calls handleClientDisconnect, which would
have removed it. -/
theorem write_failure_leaves_entry :
    (processLine (some 0) "" false [] "/NICK alice\n" true).terminated = true ∧
    (processLine (some 0) "" false [] "/NICK alice\n" true).clients
      = [(some 0, "alice")] ∧
    handleClientDisconnect [(some 0, "alice")] (some 0) = [] :=
  ⟨rfl, rfl, rfl⟩

/-- C1: every sequence of guarded register/rename operations and removes
preserves pairwise-distinct nickname values in the registry; in particular
every state reachable from the empty registry has pairwise-distinct
nicknames. -/
theorem nickname_uniqueness (reg : Registry) (ops : List RegistryOp)
    (h : (reg.map Prod.snd).Nodup) :
    ((runOps reg ops).map Prod.snd).Nodup := by
  induction ops generalizing reg with
  | nil => exact h
  | cons op ops ih => exact ih (applyOp reg op) (applyOp_nodup reg op h)

/-- Witness for `nickname_uniqueness`: a register, a refused duplicate, a
rename, a remove and a re-register starting from the empty registry. -/
theorem nickname_uniqueness_witness :
    ((runOps [] [RegistryOp.register (some 0) "alice",
                 RegistryOp.register (some 1) "alice",
                 RegistryOp.register (some 1) "bob",
                 RegistryOp.remove (some 0),
                 RegistryOp.register (some 2) "alice"]).map Prod.snd).Nodup ∧
    runOps [] [RegistryOp.register (some 0) "alice",
               RegistryOp.register (some 1) "alice",
               RegistryOp.register (some 1) "bob",
               RegistryOp.remove (some 0),
               RegistryOp.register (some 2) "alice"]
      = [(some 2, "alice"), (some 1, "bob")] :=
  ⟨nickname_uniqueness [] [RegistryOp.register (some 0) "alice",
      RegistryOp.register (some 1) "alice",
      RegistryOp.register (some 1) "bob",
      RegistryOp.remove (some 0),
      RegistryOp.register (some 2) "alice"] (by decide), by rfl⟩

/-- C2: with pairwise-distinct nicknames and the broadcaster present in the
registry, a broadcast writes to every entry exactly once — "You: body" to
the sender's own connection and "sender: body" to every other entry —
whatever the iteration order of the registry; in particular exactly N write
attempts are produced for N entries. -/
theorem broadcast_completeness (reg : Registry) (body senderNick : String)
    (senderConn : Conn)
    (hmem : (senderConn, senderNick) ∈ reg)
    (hkeys : (reg.map Prod.fst).Nodup)
    (hnicks : (reg.map Prod.snd).Nodup)
    (hnn : ∀ p ∈ reg, p.1 ≠ nilConn) :
    broadcastMessage reg body senderNick senderConn
      = reg.map (fun p =>
          if p.1 = senderConn then (p.1, "You: " ++ body ++ newline)
          else (p.1, senderNick ++ ": " ++ body ++ newline)) ∧
    (broadcastMessage reg body senderNick senderConn).length = reg.length := by
  have hmain := broadcast_with_sender body senderNick senderConn reg hmem hkeys hnicks hnn
  exact ⟨hmain, by rw [hmain, List.length_map]⟩

/-- Witness for `broadcast_completeness`: two sessions, "alice" broadcasts
"hi". -/
theorem broadcast_completeness_witness :
    broadcastMessage [(some 0, "alice"), (some 1, "bob")] "hi" "alice" (some 0)
      = [(some 0, "You: hi" ++ newline), (some 1, "alice: hi" ++ newline)] ∧
    (broadcastMessage [(some 0, "alice"), (some 1, "bob")] "hi" "alice" (some 0)).length
      = 2 := by
  have h := broadcast_completeness [(some 0, "alice"), (some 1, "bob")] "hi" "alice"
    (some 0) (by simp) (by decide) (by decide) (by decide)
  exact ⟨by rw [h.1]; rfl, h.2⟩

/-- C5: with pairwise-distinct nicknames, a private message is written to
exactly the one connection registered under the recipient nickname and to no
one else; when the recipient is absent, exactly one not-found notice goes to
the sender's own connection and nothing to anyone else. -/
theorem private_message_exclusivity (reg : Registry)
    (recip body sender : String) (senderConn : Conn)
    (hnicks : (reg.map Prod.snd).Nodup)
    (hnn : ∀ p ∈ reg, p.1 ≠ nilConn) :
    (∀ c : Conn, (c, recip) ∈ reg →
      sendPrivateMessage reg recip body sender senderConn
        = [(c, sender ++ " (private): " ++ body ++ newline)]) ∧
    (recip ∉ reg.map Prod.snd →
      sendPrivateMessage reg recip body sender senderConn
        = [(senderConn, "User " ++ recip ++ " not found or offline." ++ newline)]) := by
  constructor
  · intro c hc
    rw [sendPrivateMessage, find_recipient reg recip c hnicks hnn hc]
  · intro habs
    have hnone : reg.find? (fun p => p.1 != nilConn && p.2 == recip) = none := by
      apply List.find?_eq_none.2
      intro p hp
      simp only [Bool.and_eq_true, bne_iff_ne, beq_iff_eq, not_and]
      intro _ h2
      exact habs (h2 ▸ List.mem_map_of_mem Prod.snd hp)
    rw [sendPrivateMessage, hnone]

/-- Witness for `private_message_exclusivity`: delivery to the registered
"bob", and the not-found notice for the absent "carol". -/
theorem private_message_exclusivity_witness :
    sendPrivateMessage [(some 0, "alice"), (some 1, "bob")] "bob" "hi" "alice" (some 0)
      = [(some 1, "alice (private): hi" ++ newline)] ∧
    sendPrivateMessage [(some 0, "alice"), (some 1, "bob")] "carol" "hi" "alice" (some 0)
      = [(some 0, "User carol not found or offline." ++ newline)] :=
  ⟨(private_message_exclusivity [(some 0, "alice"), (some 1, "bob")] "bob" "hi" "alice"
      (some 0) (by decide) (by decide)).1 (some 1) (by simp),
    (private_message_exclusivity [(some 0, "alice"), (some 1, "bob")] "carol" "hi" "alice"
      (some 0) (by decide) (by decide)).2 (by decide)⟩
